import Mathlib

/-!
Verification of the in-place mutation-aware vector iterators of the
`inplace-iter` crate.

Shallow embedding: `Vec<T>` becomes `List α`; the iterator structs
(`InplaceVecIterator`, `InplaceRemovableConfirmVecIterator`) become state
records; an issued item handle is its bound index (plus, for the
`loop-lifetime-guard` build, the identifier of its shared rotten cell);
operations that can panic or exercise undefined behaviour return `Option`,
with `none` standing for the fault.  The aliasing between an iterator and its
current item through raw pointers is resolved by passing the iterator state
explicitly to the item operations.
-/

namespace InplaceIter

variable {α : Type}

/-- Rust `Vec::swap_remove(i)`: returns the element at `i` and moves the last
element into its place, shrinking the length by one; `none` models the panic
when `i` is out of bounds. -/
def swapRemove (v : List α) (i : Nat) : Option (α × List α) :=
  match v[i]?, v.getLast? with
  | some x, some y => some (x, (v.set i y).dropLast)
  | _, _ => none

/-- Rust `Vec::pop().unwrap()`: removes and returns the last element; `none`
models the panic on an empty vector. -/
def popLast (v : List α) : Option (α × List α) :=
  v.getLast?.map (fun x => (x, v.dropLast))

/-- Rust `Vec::swap(i, j)`.  The embedded code only calls it with in-bounds
indices; the out-of-bounds case (a panic in Rust) is left as the identity and
is excluded by the bounds hypotheses of every theorem that touches it. -/
def listSwap (v : List α) (i j : Nat) : List α :=
  match v[i]?, v[j]? with
  | some a, some b => (v.set i b).set j a
  | _, _ => v

/-- State of `InplaceVecIterator` (src/inplace_vec_iterator.rs): the borrowed
vector (`data`), the `removed` flag and the current `index`. -/
structure InplaceVecIterator (α : Type) where
  data : List α
  removed : Bool
  index : Option Nat
deriving DecidableEq

/-- `InplaceVecIterator::new(v)`. -/
def InplaceVecIterator.new (v : List α) : InplaceVecIterator α :=
  { data := v, removed := false, index := none }

/-- `Iterator::next` for `InplaceVecIterator`: the issued handle's bound index
(if any) together with the updated iterator state.  Mirrors the source: empty
check first (early return), then the `removed` / increment / start-at-zero
choice of the index (the source's `self.index.unwrap()` is `Option.get!`),
then the bounds check deciding whether a handle is issued. -/
def InplaceVecIterator.next (s : InplaceVecIterator α) :
    Option Nat × InplaceVecIterator α :=
  if s.data.isEmpty then (none, s)
  else
    let p : Nat × InplaceVecIterator α :=
      if s.removed then (s.index.get!, { s with removed := false })
      else
        match s.index with
        | some i => (i + 1, { s with index := some (i + 1) })
        | none => (0, { s with index := some 0 })
    if p.1 < s.data.length then (some p.1, p.2) else (none, p.2)

/-- Iterating `next` a given number of times, discarding every issued handle
(no remove/take ever called). -/
def InplaceVecIterator.advanceOnly (s : InplaceVecIterator α) : Nat → InplaceVecIterator α
  | 0 => s
  | n + 1 => (s.next.2).advanceOnly n

/-- Guard of the pop branch inside `InplaceVecItem::take_value`:
`self.index == v.len()`.  `true` selects `v.pop().unwrap()`, `false` selects
`v.swap_remove(self.index)`. -/
def InplaceVecItem.popBranch (v : List α) (index : Nat) : Bool :=
  index == v.length

/-- Effect of `InplaceVecItem::take_value` on the vector alone: the returned
value and the shrunk vector. -/
def InplaceVecItem.takeValueList (v : List α) (index : Nat) : Option (α × List α) :=
  if InplaceVecItem.popBranch v index then popLast v else swapRemove v index

/-- `InplaceVecItem::take_value`: sets the shared `removed` flag of the
iterator and removes the element at the bound index from the shared vector.
`none` models the panic paths of `pop().unwrap()` / `swap_remove`. -/
def InplaceVecItem.takeValue (s : InplaceVecIterator α) (index : Nat) :
    Option (α × InplaceVecIterator α) :=
  (InplaceVecItem.takeValueList s.data index).map
    (fun p => (p.1, { s with removed := true, data := p.2 }))

/-- `RemovableItem::remove` for `InplaceVecItem`: `let _ = self.take_value();`. -/
def InplaceVecItem.remove (s : InplaceVecIterator α) (index : Nat) :
    Option (InplaceVecIterator α) :=
  (InplaceVecItem.takeValue s index).map Prod.snd

/-- `InplaceVecItem::get_value`: unchecked read at the bound index; `none`
models the out-of-bounds access (undefined behaviour in the source). -/
def InplaceVecItem.getValue (s : InplaceVecIterator α) (index : Nat) : Option α :=
  s.data[index]?

/-- State of `InplaceRemovableConfirmVecIterator`
(src/removable_confirm_iterator_vec.rs): the physical vector, the
mark-for-removal flag, the traversal index, and the logical `size` left after
the removals marked so far. -/
structure InplaceRemovableConfirmVecIterator (α : Type) where
  data : List α
  removed : Bool
  index : Option Nat
  size : Nat
deriving DecidableEq

/-- `InplaceRemovableConfirmVecIterator::new(v)`: `size` starts at `v.len()`. -/
def InplaceRemovableConfirmVecIterator.new (v : List α) :
    InplaceRemovableConfirmVecIterator α :=
  { data := v, removed := false, index := none, size := v.length }

/-- `InplaceRemovableConfirmVecIterator::next_item`: like the base iterator's
`next`, with one extra early return `if index >= self.size { return None; }`
before the physical-bounds check. -/
def InplaceRemovableConfirmVecIterator.nextItem
    (s : InplaceRemovableConfirmVecIterator α) :
    Option Nat × InplaceRemovableConfirmVecIterator α :=
  if s.data.isEmpty then (none, s)
  else
    let p : Nat × InplaceRemovableConfirmVecIterator α :=
      if s.removed then (s.index.get!, { s with removed := false })
      else
        match s.index with
        | some i => (i + 1, { s with index := some (i + 1) })
        | none => (0, { s with index := some 0 })
    if p.1 ≥ s.size then (none, p.2)
    else if p.1 < s.data.length then (some p.1, p.2) else (none, p.2)

/-- `RemovableConfirmIterator::iter`: `self.index = None; self` — resets the
traversal index, keeping everything else. -/
def InplaceRemovableConfirmVecIterator.iterAgain
    (s : InplaceRemovableConfirmVecIterator α) :
    InplaceRemovableConfirmVecIterator α :=
  { s with index := none }

/-- `confirm_removals`: `if self.size < self.vector.len() { self.vector.truncate(self.size) }`;
returns the final physical vector. -/
def InplaceRemovableConfirmVecIterator.confirmRemovals
    (s : InplaceRemovableConfirmVecIterator α) : List α :=
  if s.size < s.data.length then s.data.take s.size else s.data

/-- `cancel_removals`: does nothing; the physical vector is left exactly as
the swaps left it. -/
def InplaceRemovableConfirmVecIterator.cancelRemovals
    (s : InplaceRemovableConfirmVecIterator α) : List α :=
  s.data

/-- `InplaceRemovableConfirmVecItem::remove_value`: sets the shared `removed`
flag, decrements the shared `size`, and swaps the bound index with the element
at the new `size` when the bound index is below it.  The physical vector is
never shrunk here. -/
def InplaceRemovableConfirmVecItem.removeValue
    (s : InplaceRemovableConfirmVecIterator α) (index : Nat) :
    InplaceRemovableConfirmVecIterator α :=
  let size := s.size - 1
  let data := if index < size then listSwap s.data index size else s.data
  { s with removed := true, size := size, data := data }

/-- `InplaceRemovableConfirmVecItem::get_value`: unchecked read at the bound
index. -/
def InplaceRemovableConfirmVecItem.getValue
    (s : InplaceRemovableConfirmVecIterator α) (index : Nat) : Option α :=
  s.data[index]?

/-- Handle issued by the guarded (`loop-lifetime-guard`) iterator: its bound
index and the identifier of the rotten cell it shares with the iterator. -/
structure GuardedItem where
  index : Nat
  rid : Nat
deriving DecidableEq

/-- State of `InplaceVecIterator` compiled with the `loop-lifetime-guard`
feature.  The `Rc<RefCell<bool>>` rotten cells are modelled as a growing list
of booleans: cell `i` belongs to the `i`-th handle ever issued; `lastRotten`
is the cell of the most recently issued handle (the source's `last_rotten`). -/
structure GuardedIterator (α : Type) where
  data : List α
  removed : Bool
  index : Option Nat
  rotten : List Bool
  lastRotten : Option Nat
deriving DecidableEq

/-- `GuardedIterator` over a fresh vector. -/
def GuardedIterator.new (v : List α) : GuardedIterator α :=
  { data := v, removed := false, index := none, rotten := [], lastRotten := none }

/-- `InplaceVecIterator::rotten_item`: marks the cell of the most recently
issued handle stale and forgets it. -/
def GuardedIterator.rottenItem (s : GuardedIterator α) : GuardedIterator α :=
  match s.lastRotten with
  | some c => { s with rotten := s.rotten.set c true, lastRotten := none }
  | none => s

/-- Body of the guarded `Iterator::next` after the initial `rotten_item` call:
as in the unguarded `next`, except that when a handle is issued a fresh
(false) rotten cell is allocated for it and remembered in `lastRotten`. -/
def GuardedIterator.nextCore (s : GuardedIterator α) :
    Option GuardedItem × GuardedIterator α :=
  if s.data.isEmpty then (none, s)
  else
    let p : Nat × GuardedIterator α :=
      if s.removed then (s.index.get!, { s with removed := false })
      else
        match s.index with
        | some i => (i + 1, { s with index := some (i + 1) })
        | none => (0, { s with index := some 0 })
    if p.1 < s.data.length then
      (some { index := p.1, rid := p.2.rotten.length },
        { p.2 with
            rotten := p.2.rotten ++ [false]
            lastRotten := some p.2.rotten.length })
    else (none, p.2)

/-- `Iterator::next` with the guard: `self.rotten_item();` first (invalidating
the previously issued handle), then the rest of the body. -/
def GuardedIterator.next (s : GuardedIterator α) :
    Option GuardedItem × GuardedIterator α :=
  s.rottenItem.nextCore

/-- `Drop for InplaceVecIterator`: rottens the still-live handle, if any. -/
def GuardedIterator.drop (s : GuardedIterator α) : GuardedIterator α :=
  s.rottenItem

/-- Whether a handle's rotten cell has been marked stale
(`*self.rotten.borrow()` in `check_rotten`). -/
def GuardedItem.isRotten (s : GuardedIterator α) (it : GuardedItem) : Bool :=
  s.rotten.getD it.rid false

/-- Guarded `get_value`: `check_rotten` first (a `none` result models the
panic), then the unchecked read. -/
def GuardedItem.getValue (s : GuardedIterator α) (it : GuardedItem) : Option α :=
  if GuardedItem.isRotten s it then none else s.data[it.index]?

/-- Guarded `get_value_mut`: `check_rotten` first, then the unchecked mutable
access (modelled by the value the returned reference points at). -/
def GuardedItem.getValueMut (s : GuardedIterator α) (it : GuardedItem) : Option α :=
  if GuardedItem.isRotten s it then none else s.data[it.index]?

/-- Guarded `take_value`: `check_rotten` first, then the unguarded
`take_value` effect. -/
def GuardedItem.takeValue (s : GuardedIterator α) (it : GuardedItem) :
    Option (α × GuardedIterator α) :=
  if GuardedItem.isRotten s it then none
  else
    (InplaceVecItem.takeValueList s.data it.index).map
      (fun p => (p.1, { s with removed := true, data := p.2 }))

/-- Guarded `remove`: `let _ = self.take_value();`. -/
def GuardedItem.remove (s : GuardedIterator α) (it : GuardedItem) :
    Option (GuardedIterator α) :=
  (GuardedItem.takeValue s it).map Prod.snd

lemma swapRemove_of_lt (v : List α) (i : Nat) (h : i < v.length) :
    ∃ y, v.getLast? = some y ∧ swapRemove v i = some (v[i], (v.set i y).dropLast) := by
  cases hgl : v.getLast? with
  | none =>
    rw [List.getLast?_eq_none_iff] at hgl
    subst hgl
    simp at h
  | some y =>
    refine ⟨y, rfl, ?_⟩
    unfold swapRemove
    rw [List.getElem?_eq_getElem h, hgl]

lemma set_last_dropLast (v : List α) (a : α) :
    (v.set (v.length - 1) a).dropLast = v.dropLast := by
  apply List.ext_getElem?
  intro n
  rw [List.dropLast_eq_take, List.dropLast_eq_take, List.length_set,
      List.getElem?_take, List.getElem?_take]
  split
  · rw [List.getElem?_set]
    split
    · exfalso; omega
    · rfl
  · rfl

lemma next_data (s : InplaceVecIterator α) : s.next.2.data = s.data := by
  obtain ⟨v, r, i⟩ := s
  cases r <;> cases i <;> simp [InplaceVecIterator.next] <;>
    split <;> simp_all <;> split <;> simp_all

lemma next_some_lt {s : InplaceVecIterator α} {i : Nat}
    (h : s.next.1 = some i) : i < s.data.length := by
  obtain ⟨v, r, j⟩ := s
  cases r <;> cases j <;> simp [InplaceVecIterator.next] at h <;>
    split at h <;> simp_all <;> split at h <;> simp_all

lemma advanceOnly_data (s : InplaceVecIterator α) (n : Nat) :
    (s.advanceOnly n).data = s.data := by
  induction n generalizing s with
  | zero => rfl
  | succ n ih =>
    rw [InplaceVecIterator.advanceOnly, ih, next_data]

lemma advanceOnly_succ_back (s : InplaceVecIterator α) (n : Nat) :
    s.advanceOnly (n + 1) = (s.advanceOnly n).next.2 := by
  induction n generalizing s with
  | zero => rfl
  | succ n ih =>
    rw [InplaceVecIterator.advanceOnly, ih]
    rfl

lemma advanceOnly_new_succ (v : List α) (hv : v ≠ []) (k : Nat) :
    (InplaceVecIterator.new v).advanceOnly (k + 1) =
      { data := v, removed := false, index := some k } := by
  induction k with
  | zero =>
    show ((InplaceVecIterator.new v).next.2).advanceOnly 0 = _
    simp [InplaceVecIterator.advanceOnly, InplaceVecIterator.new,
      InplaceVecIterator.next, hv]
    split <;> rfl
  | succ k ih =>
    rw [advanceOnly_succ_back, ih]
    simp [InplaceVecIterator.next, hv]
    split <;> rfl

/-- C1 (amended): after a remove/take set the `removed` flag, the next advance
on a still non-empty vector clears the flag and re-uses the same index — it
does not advance by one — issuing a handle bound to that index exactly when it
is still within bounds; if the vector has become empty, `next` instead returns
exhausted immediately, leaving the flag set. -/
theorem next_after_removal_reuses_index (s : InplaceVecIterator α) (i : Nat)
    (hr : s.removed = true) (hi : s.index = some i) :
    (s.data ≠ [] →
      s.next.2.removed = false ∧ s.next.2.index = some i ∧ s.next.2.data = s.data ∧
      s.next.1 = (if i < s.data.length then some i else none)) ∧
    (s.data = [] → s.next = (none, s)) := by
  obtain ⟨v, r, j⟩ := s
  simp only at hr hi
  subst hr
  subst hi
  constructor
  · intro hv
    simp [InplaceVecIterator.next, hv]
    split <;> simp_all
  · intro hv
    subst hv
    rfl

/-- C1 counterexample: on the sequence `[1]`, the first handle's take empties
the vector and sets the flag, and the following advance neither clears the
flag nor issues a handle bound to index 0 — it returns exhausted with the
flag still set, refuting the claim as stated. -/
theorem removal_of_sole_element_starves_next_cex :
    (InplaceVecIterator.new ([1] : List Nat)).next =
      (some 0, { data := [1], removed := false, index := some 0 }) ∧
    InplaceVecItem.takeValue
        ({ data := [1], removed := false, index := some 0 } : InplaceVecIterator Nat) 0 =
      some (1, { data := [], removed := true, index := some 0 }) ∧
    (InplaceVecIterator.next
        { data := ([] : List Nat), removed := true, index := some 0 }).1 = none ∧
    (InplaceVecIterator.next
        { data := ([] : List Nat), removed := true, index := some 0 }).2.removed = true := by
  refine ⟨rfl, rfl, rfl, rfl⟩

/-- C1 witness: concrete instance of `next_after_removal_reuses_index` on
`[5, 6]` with the flag set at index 0. -/
theorem next_after_removal_reuses_index_witness :
    (InplaceVecIterator.next
        ({ data := [5, 6], removed := true, index := some 0 } : InplaceVecIterator Nat)).2.removed = false ∧
    (InplaceVecIterator.next
        ({ data := [5, 6], removed := true, index := some 0 } : InplaceVecIterator Nat)).2.index = some 0 :=
  have h := next_after_removal_reuses_index
    ({ data := [5, 6], removed := true, index := some 0 } : InplaceVecIterator Nat) 0 rfl rfl
  have h2 := h.1 (by simp)
  ⟨h2.1, h2.2.1⟩

/-- C2: taking at an index `i` that is not the last position shrinks the
length by one and puts the element that was previously at the physical last
position at index `i`; taking at the last position yields exactly the
original vector without its last element, preserving the order of all
remaining elements. -/
theorem take_value_swap_semantics (v : List α) :
    (∀ i, i + 1 < v.length →
      ∃ x u, InplaceVecItem.takeValueList v i = some (x, u) ∧
        u.length + 1 = v.length ∧ u[i]? = v.getLast?) ∧
    (v ≠ [] →
      ∃ x, InplaceVecItem.takeValueList v (v.length - 1) = some (x, v.dropLast)) := by
  constructor
  · intro i hi
    have hlt : i < v.length := by omega
    obtain ⟨y, hy, hs⟩ := swapRemove_of_lt v i hlt
    have hb : InplaceVecItem.popBranch v i = false := by
      unfold InplaceVecItem.popBranch
      simp
      omega
    refine ⟨v[i], (v.set i y).dropLast, ?_, ?_, ?_⟩
    · unfold InplaceVecItem.takeValueList
      rw [hb]
      simpa using hs
    · simp [List.length_set]
      omega
    · rw [hy, List.dropLast_eq_take, List.getElem?_take]
      rw [List.length_set]
      split
      · exact List.getElem?_set_self hlt
      · exfalso; omega
  · intro hv
    have hlen : 0 < v.length := List.length_pos.mpr hv
    have hlt : v.length - 1 < v.length := by omega
    obtain ⟨y, hy, hs⟩ := swapRemove_of_lt v (v.length - 1) hlt
    have hb : InplaceVecItem.popBranch v (v.length - 1) = false := by
      unfold InplaceVecItem.popBranch
      simp
      omega
    refine ⟨v[v.length - 1], ?_⟩
    unfold InplaceVecItem.takeValueList
    rw [hb]
    simp only [Bool.false_eq_true, if_false]
    rw [hs, set_last_dropLast]

/-- C2 witness: concrete instance of `take_value_swap_semantics` on
`[1, 2, 3]` at the non-last index 0 and at the last index. -/
theorem take_value_swap_semantics_witness :
    (∃ x u, InplaceVecItem.takeValueList ([1, 2, 3] : List Nat) 0 = some (x, u) ∧
      u.length + 1 = ([1, 2, 3] : List Nat).length ∧
      u[0]? = ([1, 2, 3] : List Nat).getLast?) ∧
    (∃ x, InplaceVecItem.takeValueList ([1, 2, 3] : List Nat)
        (([1, 2, 3] : List Nat).length - 1) = some (x, ([1, 2, 3] : List Nat).dropLast)) :=
  ⟨(take_value_swap_semantics [1, 2, 3]).1 0 (by decide),
   (take_value_swap_semantics [1, 2, 3]).2 (by decide)⟩

/-- C3: for an in-bounds bound index, `take_value` returns exactly the value
stored at that index, and `remove` (which the source defines as
`let _ = self.take_value();`) leaves the iterator — vector contents, order
and length included — in exactly the state `take_value` leaves it in. -/
theorem take_returns_bound_value_and_matches_remove
    (s : InplaceVecIterator α) (i : Nat) (h : i < s.data.length) :
    ∃ s', InplaceVecItem.takeValue s i = some (s.data[i], s') ∧
      InplaceVecItem.remove s i = some s' := by
  obtain ⟨y, hy, hs⟩ := swapRemove_of_lt s.data i h
  have hb : InplaceVecItem.popBranch s.data i = false := by
    unfold InplaceVecItem.popBranch
    simp
    omega
  have ht : InplaceVecItem.takeValue s i =
      some (s.data[i],
        { s with removed := true, data := (s.data.set i y).dropLast }) := by
    unfold InplaceVecItem.takeValue InplaceVecItem.takeValueList
    rw [hb]
    simp only [Bool.false_eq_true, if_false]
    rw [hs]
    rfl
  exact ⟨_, ht, by unfold InplaceVecItem.remove; rw [ht]; rfl⟩

/-- C3 witness: concrete instance of
`take_returns_bound_value_and_matches_remove` on `[7, 8, 9]` at index 1. -/
theorem take_returns_bound_value_and_matches_remove_witness :
    ∃ s', InplaceVecItem.takeValue
        ({ data := [7, 8, 9], removed := false, index := some 1 } : InplaceVecIterator Nat) 1 =
        some (([7, 8, 9] : List Nat)[1], s') ∧
      InplaceVecItem.remove
        ({ data := [7, 8, 9], removed := false, index := some 1 } : InplaceVecIterator Nat) 1 =
        some s' :=
  take_returns_bound_value_and_matches_remove _ 1 (by decide)

/-- C4 counterexample: for the two-element vector `[10, 20]` and a handle
bound to the last position (index 1), the pop branch's guard
`index == v.len()` is false, so the swap-remove branch — not the pop
branch — is the one executed, refuting the claim as stated. -/
theorem pop_branch_skipped_at_last_position_cex :
    InplaceVecItem.popBranch ([10, 20] : List Nat) (([10, 20] : List Nat).length - 1) = false ∧
    InplaceVecItem.takeValueList ([10, 20] : List Nat) 1 = some (20, [10]) := by
  refine ⟨rfl, rfl⟩

/-- C4 (amended): the pop branch is guarded by `index == v.len()`, which never
holds for an in-bounds handle; a last-position handle therefore executes the
swap-remove branch, and at the last index that branch is behaviorally a plain
remove-last: it returns the last element and leaves the prefix unchanged. -/
theorem last_position_take_uses_swap_branch_as_pop (v : List α) (hv : v ≠ []) :
    InplaceVecItem.popBranch v (v.length - 1) = false ∧
    InplaceVecItem.takeValueList v (v.length - 1) = popLast v ∧
    (∃ x, v.getLast? = some x ∧ swapRemove v (v.length - 1) = some (x, v.dropLast)) := by
  have hlen : 0 < v.length := List.length_pos.mpr hv
  have hlt : v.length - 1 < v.length := by omega
  obtain ⟨y, hy, hs⟩ := swapRemove_of_lt v (v.length - 1) hlt
  have hb : InplaceVecItem.popBranch v (v.length - 1) = false := by
    unfold InplaceVecItem.popBranch
    simp
    omega
  have hswap : swapRemove v (v.length - 1) = some (y, v.dropLast) := by
    rw [hs, set_last_dropLast]
    have : v[v.length - 1] = y := by
      have := List.getLast?_eq_getElem? v
      rw [hy, List.getElem?_eq_getElem hlt] at this
      exact (Option.some.injEq _ _).mp this.symm
    rw [this]
  refine ⟨hb, ?_, ⟨y, hy, hswap⟩⟩
  unfold InplaceVecItem.takeValueList popLast
  rw [hb]
  simp only [Bool.false_eq_true, if_false]
  rw [hswap, hy]
  rfl

/-- C4 witness: concrete instance of
`last_position_take_uses_swap_branch_as_pop` on `[4, 5, 6]`. -/
theorem last_position_take_uses_swap_branch_as_pop_witness :
    InplaceVecItem.popBranch ([4, 5, 6] : List Nat) (([4, 5, 6] : List Nat).length - 1) = false ∧
    InplaceVecItem.takeValueList ([4, 5, 6] : List Nat) (([4, 5, 6] : List Nat).length - 1) =
      popLast ([4, 5, 6] : List Nat) ∧
    (∃ x, ([4, 5, 6] : List Nat).getLast? = some x ∧
      swapRemove ([4, 5, 6] : List Nat) (([4, 5, 6] : List Nat).length - 1) =
        some (x, ([4, 5, 6] : List Nat).dropLast)) :=
  last_position_take_uses_swap_branch_as_pop [4, 5, 6] (by decide)

/-- C9: advancing the cursor any number of times without ever calling a
handle's remove/take leaves the vector exactly unchanged, in content and
order, and a full pass (one `next` per element) is then exhausted: the
following `next` yields no handle. -/
theorem iteration_without_removal_preserves_vector (v : List α) :
    (∀ k, ((InplaceVecIterator.new v).advanceOnly k).data = v) ∧
    ((InplaceVecIterator.new v).advanceOnly v.length).next.1 = none := by
  constructor
  · intro k
    exact advanceOnly_data _ k
  · by_cases hv : v = []
    · subst hv
      rfl
    · cases hl : v.length with
      | zero => exact absurd (List.length_eq_zero.mp hl) hv
      | succ n =>
        rw [advanceOnly_new_succ v hv n]
        simp [InplaceVecIterator.next, hv, hl]

/-- C10: every handle issued by the base cursor's `next` is bound to an index
strictly below the (unchanged) vector length, so its remove/take never enters
the `index == v.len()` pop branch: the swap-remove path runs with an
in-bounds index and succeeds (no `pop().unwrap()` panic is reachable). -/
theorem issued_handle_take_is_in_bounds_swap {s : InplaceVecIterator α} {i : Nat}
    (h : s.next.1 = some i) :
    i < s.next.2.data.length ∧
    InplaceVecItem.popBranch s.next.2.data i = false ∧
    (∃ x u, swapRemove s.next.2.data i = some (x, u) ∧
      InplaceVecItem.takeValueList s.next.2.data i = some (x, u)) := by
  have hd := next_data s
  have hlt := next_some_lt h
  rw [hd]
  have hb : InplaceVecItem.popBranch s.data i = false := by
    unfold InplaceVecItem.popBranch
    simp
    omega
  obtain ⟨y, hy, hs⟩ := swapRemove_of_lt s.data i hlt
  refine ⟨hlt, hb, s.data[i], (s.data.set i y).dropLast, hs, ?_⟩
  unfold InplaceVecItem.takeValueList
  rw [hb]
  simp only [Bool.false_eq_true, if_false]
  exact hs

/-- C10 witness: concrete instance of `issued_handle_take_is_in_bounds_swap`
for the first handle issued over `[4, 5]`. -/
theorem issued_handle_take_is_in_bounds_swap_witness :
    0 < (InplaceVecIterator.new ([4, 5] : List Nat)).next.2.data.length ∧
    InplaceVecItem.popBranch (InplaceVecIterator.new ([4, 5] : List Nat)).next.2.data 0 = false ∧
    (∃ x u, swapRemove (InplaceVecIterator.new ([4, 5] : List Nat)).next.2.data 0 = some (x, u) ∧
      InplaceVecItem.takeValueList (InplaceVecIterator.new ([4, 5] : List Nat)).next.2.data 0 =
        some (x, u)) :=
  issued_handle_take_is_in_bounds_swap (s := InplaceVecIterator.new ([4, 5] : List Nat)) rfl

lemma listSwap_length (v : List α) (i j : Nat) : (listSwap v i j).length = v.length := by
  unfold listSwap
  split <;> simp

/-- C5: a remove through the deferred-commit cursor's handle at an in-range
bound index decrements the logical `size` by one, sets the
pending-structural-change flag, leaves the physical length of the vector
unchanged, and swaps the element at the bound index with the element at the
new `size` exactly when the bound index lies below it (otherwise the vector
is untouched). -/
theorem confirm_remove_value_semantics
    (s : InplaceRemovableConfirmVecIterator α) (i : Nat) (h : i < s.size) :
    (InplaceRemovableConfirmVecItem.removeValue s i).size + 1 = s.size ∧
    (InplaceRemovableConfirmVecItem.removeValue s i).removed = true ∧
    (InplaceRemovableConfirmVecItem.removeValue s i).data.length = s.data.length ∧
    (i < s.size - 1 →
      (InplaceRemovableConfirmVecItem.removeValue s i).data = listSwap s.data i (s.size - 1)) ∧
    (¬ i < s.size - 1 →
      (InplaceRemovableConfirmVecItem.removeValue s i).data = s.data) := by
  unfold InplaceRemovableConfirmVecItem.removeValue
  refine ⟨by simp; omega, rfl, ?_, ?_, ?_⟩
  · simp only
    split
    · exact listSwap_length _ _ _
    · rfl
  · intro hlt
    simp only
    rw [if_pos hlt]
  · intro hge
    simp only
    rw [if_neg hge]

theorem confirm_remove_value_semantics_witness :
    (InplaceRemovableConfirmVecItem.removeValue
        (InplaceRemovableConfirmVecIterator.new ([1, 2, 3] : List Nat)) 0).size + 1 =
      (InplaceRemovableConfirmVecIterator.new ([1, 2, 3] : List Nat)).size ∧
    (InplaceRemovableConfirmVecItem.removeValue
        (InplaceRemovableConfirmVecIterator.new ([1, 2, 3] : List Nat)) 0).removed = true ∧
    (InplaceRemovableConfirmVecItem.removeValue
        (InplaceRemovableConfirmVecIterator.new ([1, 2, 3] : List Nat)) 0).data.length =
      (InplaceRemovableConfirmVecIterator.new ([1, 2, 3] : List Nat)).data.length ∧
    (0 < (InplaceRemovableConfirmVecIterator.new ([1, 2, 3] : List Nat)).size - 1 →
      (InplaceRemovableConfirmVecItem.removeValue
          (InplaceRemovableConfirmVecIterator.new ([1, 2, 3] : List Nat)) 0).data =
        listSwap (InplaceRemovableConfirmVecIterator.new ([1, 2, 3] : List Nat)).data 0
          ((InplaceRemovableConfirmVecIterator.new ([1, 2, 3] : List Nat)).size - 1)) ∧
    (¬ 0 < (InplaceRemovableConfirmVecIterator.new ([1, 2, 3] : List Nat)).size - 1 →
      (InplaceRemovableConfirmVecItem.removeValue
          (InplaceRemovableConfirmVecIterator.new ([1, 2, 3] : List Nat)) 0).data =
        (InplaceRemovableConfirmVecIterator.new ([1, 2, 3] : List Nat)).data) :=
  confirm_remove_value_semantics (InplaceRemovableConfirmVecIterator.new [1, 2, 3]) 0 (by decide)

/-- C6: `confirm_removals` truncates the physical vector to exactly the
logical `size` elements (a no-op when they already coincide), while
`cancel_removals` leaves the physical vector — length and contents — exactly
as the swaps left it. -/
theorem confirm_truncates_cancel_preserves
    (s : InplaceRemovableConfirmVecIterator α) (h : s.size ≤ s.data.length) :
    InplaceRemovableConfirmVecIterator.confirmRemovals s = s.data.take s.size ∧
    (InplaceRemovableConfirmVecIterator.confirmRemovals s).length = s.size ∧
    InplaceRemovableConfirmVecIterator.cancelRemovals s = s.data := by
  have he : InplaceRemovableConfirmVecIterator.confirmRemovals s = s.data.take s.size := by
    unfold InplaceRemovableConfirmVecIterator.confirmRemovals
    split
    · rfl
    · rw [List.take_of_length_le (by omega)]
  refine ⟨he, ?_, rfl⟩
  rw [he, List.length_take]
  omega

theorem confirm_truncates_cancel_preserves_witness :
    InplaceRemovableConfirmVecIterator.confirmRemovals
        ({ data := [1, 5, 3, 4, 2], removed := false, index := some 4, size := 3 } :
          InplaceRemovableConfirmVecIterator Nat) =
      ([1, 5, 3, 4, 2] : List Nat).take 3 ∧
    (InplaceRemovableConfirmVecIterator.confirmRemovals
        ({ data := [1, 5, 3, 4, 2], removed := false, index := some 4, size := 3 } :
          InplaceRemovableConfirmVecIterator Nat)).length = 3 ∧
    InplaceRemovableConfirmVecIterator.cancelRemovals
        ({ data := [1, 5, 3, 4, 2], removed := false, index := some 4, size := 3 } :
          InplaceRemovableConfirmVecIterator Nat) = [1, 5, 3, 4, 2] :=
  confirm_truncates_cancel_preserves
    ({ data := [1, 5, 3, 4, 2], removed := false, index := some 4, size := 3 } :
      InplaceRemovableConfirmVecIterator Nat) (by decide)

lemma nextItem_some_lt {s : InplaceRemovableConfirmVecIterator α} {i : Nat}
    (h : s.nextItem.1 = some i) : i < s.size := by
  obtain ⟨v, r, j, z⟩ := s
  cases r <;> cases j <;>
    simp [InplaceRemovableConfirmVecIterator.nextItem, apply_ite Prod.fst] at h
  all_goals obtain ⟨-, h1, -, h2⟩ := h
  all_goals dsimp only
  all_goals omega

lemma nextItem_frame (s : InplaceRemovableConfirmVecIterator α) :
    s.nextItem.2.data = s.data ∧ s.nextItem.2.size = s.size := by
  obtain ⟨v, r, j, z⟩ := s
  cases r <;> cases j <;>
    simp [InplaceRemovableConfirmVecIterator.nextItem, apply_ite Prod.snd, ite_self]
  all_goals split <;> exact ⟨rfl, rfl⟩

/-- C7: every handle the deferred-commit cursor issues is bound to an index
strictly below the current logical `size` (which `next_item` never changes),
so re-iterations never visit a logically-removed element; and `iter`
(iterate-again) resets only the traversal index, preserving `size`, the
vector with all prior swaps, and the flag. -/
theorem confirm_handles_below_logical_size
    (s : InplaceRemovableConfirmVecIterator α) (i : Nat) (h : s.nextItem.1 = some i) :
    i < s.size ∧ i < s.nextItem.2.size ∧
    s.nextItem.2.data = s.data ∧
    (s.iterAgain.size = s.size ∧ s.iterAgain.data = s.data ∧
      s.iterAgain.index = none ∧ s.iterAgain.removed = s.removed) := by
  have hf := nextItem_frame s
  have hlt := nextItem_some_lt h
  exact ⟨hlt, by rw [hf.2]; exact hlt, hf.1, rfl, rfl, rfl, rfl⟩

theorem confirm_handles_below_logical_size_witness :
    0 < (InplaceRemovableConfirmVecIterator.new ([5, 6] : List Nat)).size ∧
    0 < (InplaceRemovableConfirmVecIterator.new ([5, 6] : List Nat)).nextItem.2.size ∧
    (InplaceRemovableConfirmVecIterator.new ([5, 6] : List Nat)).nextItem.2.data =
      (InplaceRemovableConfirmVecIterator.new ([5, 6] : List Nat)).data ∧
    ((InplaceRemovableConfirmVecIterator.new ([5, 6] : List Nat)).iterAgain.size =
        (InplaceRemovableConfirmVecIterator.new ([5, 6] : List Nat)).size ∧
      (InplaceRemovableConfirmVecIterator.new ([5, 6] : List Nat)).iterAgain.data =
        (InplaceRemovableConfirmVecIterator.new ([5, 6] : List Nat)).data ∧
      (InplaceRemovableConfirmVecIterator.new ([5, 6] : List Nat)).iterAgain.index = none ∧
      (InplaceRemovableConfirmVecIterator.new ([5, 6] : List Nat)).iterAgain.removed =
        (InplaceRemovableConfirmVecIterator.new ([5, 6] : List Nat)).removed) :=
  confirm_handles_below_logical_size (InplaceRemovableConfirmVecIterator.new [5, 6]) 0 rfl

lemma rottenItem_marks {s : GuardedIterator α} {c : Nat}
    (h : s.lastRotten = some c) (hc : c < s.rotten.length) :
    s.rottenItem.rotten.getD c false = true ∧
    s.rottenItem.rotten.length = s.rotten.length := by
  simp [GuardedIterator.rottenItem, h]
  rw [List.getElem?_set_self hc]
  rfl

lemma nextCore_preserves_mark {t : GuardedIterator α} {c : Nat}
    (hc : c < t.rotten.length) (h : t.rotten.getD c false = true) :
    t.nextCore.2.rotten.getD c false = true := by
  obtain ⟨v, r, j, ro, lr⟩ := t
  simp only at hc h
  rw [List.getD_eq_getElem?_getD] at h
  cases r <;> cases j <;>
    simp [GuardedIterator.nextCore, apply_ite Prod.snd]
  all_goals try split
  all_goals try split
  all_goals simp_all [List.getElem?_append_left hc]

lemma nextCore_issues {t : GuardedIterator α} {it : GuardedItem}
    {s₂ : GuardedIterator α} (h : t.nextCore = (some it, s₂)) :
    s₂.lastRotten = some it.rid ∧ it.rid < s₂.rotten.length := by
  obtain ⟨v, r, j, ro, lr⟩ := t
  cases r <;> cases j <;> simp [GuardedIterator.nextCore] at h
  all_goals split at h
  all_goals try split at h
  all_goals simp_all
  all_goals (obtain ⟨h1, h2⟩ := h; rw [← h2]; simp [← h1])


/-- C8: once a handle has been superseded — the cursor issued a later handle
via `next`, or the cursor was dropped — its rotten cell is marked stale, and
with the guard enabled every operation on it (read, mutate via `get_value_mut`,
remove, take) faults. -/
theorem stale_handle_operations_fault (s : GuardedIterator α) (it : GuardedItem)
    (s₂ : GuardedIterator α) (h : s.next = (some it, s₂)) :
    GuardedItem.isRotten s₂.drop it = true ∧
    GuardedItem.isRotten s₂.next.2 it = true ∧
    (∀ t : GuardedIterator α, GuardedItem.isRotten t it = true →
      GuardedItem.getValue t it = none ∧ GuardedItem.getValueMut t it = none ∧
      GuardedItem.takeValue t it = none ∧ GuardedItem.remove t it = none) := by
  unfold GuardedIterator.next at h
  obtain ⟨h1, h2⟩ := nextCore_issues h
  refine ⟨?_, ?_, ?_⟩
  · unfold GuardedIterator.drop GuardedItem.isRotten
    exact (rottenItem_marks h1 h2).1
  · unfold GuardedIterator.next GuardedItem.isRotten
    have hm := rottenItem_marks h1 h2
    exact nextCore_preserves_mark (by rw [hm.2]; exact h2) hm.1
  · intro t ht
    have htake : GuardedItem.takeValue t it = none := by
      unfold GuardedItem.takeValue
      rw [ht]
      rfl
    refine ⟨?_, ?_, htake, ?_⟩
    · unfold GuardedItem.getValue
      rw [ht]
      rfl
    · unfold GuardedItem.getValueMut
      rw [ht]
      rfl
    · unfold GuardedItem.remove
      rw [htake]
      rfl

/-- C8 witness: the spec's scenario on `[1, 2, 3, 4, 5]` — the first issued
handle, saved past the following `next` call, is stale there and its read
faults. -/
theorem stale_handle_operations_fault_witness :
    GuardedItem.isRotten
        (GuardedIterator.next
          (⟨[1, 2, 3, 4, 5], false, some 0, [false], some 0⟩ : GuardedIterator Nat)).2
        ⟨0, 0⟩ = true ∧
    GuardedItem.getValue
        (GuardedIterator.next
          (⟨[1, 2, 3, 4, 5], false, some 0, [false], some 0⟩ : GuardedIterator Nat)).2
        ⟨0, 0⟩ = none :=
  have h := stale_handle_operations_fault (GuardedIterator.new [1, 2, 3, 4, 5]) ⟨0, 0⟩
    (⟨[1, 2, 3, 4, 5], false, some 0, [false], some 0⟩ : GuardedIterator Nat) rfl
  ⟨h.2.1, (h.2.2 _ h.2.1).1⟩

end InplaceIter
